import Mathlib

/-!
Verification of the session/mastery state machine of the AWS quiz trainer
(`web_app.py`) against its natural-language specification.

The Python source is shallowly embedded: dictionaries become structures,
the Flask `session` becomes an explicit `SessionState`, the SQLite mastery
table becomes a function `Nat → Option (Nat × Nat)` from question id to
`(correct_count, incorrect_count)`, and request handlers become pure
functions from state to (response, new state).  `random.shuffle` and SQL
`ORDER BY RANDOM()` are modelled by quantifying over the arbitrary order
in which rows arrive.
-/

namespace QuizTrainer

/-- An option row as built by `get_questions`:
`{'letter': ..., 'text': ..., 'is_correct': ...}`. -/
structure Opt where
  letter : Char
  text : String
  is_correct : Bool
deriving Repr, DecidableEq

/-- A question dict as built by `get_questions`: id, question text, domain,
explanation, the option list (in canonical letter order), and the list of
correct option letters (`correct = [opt.letter for opt in options if opt.is_correct]`). -/
structure Question where
  id : Nat
  question : String
  domain : String
  explanation : String
  options : List Opt
  correct : List Char
deriving Repr, DecidableEq

/-! ### Option presentation: `shuffle_options` (web_app.py lines 13-34)

The Python function first makes a copy of its input and calls
`random.shuffle` on the copy; the shuffled copy is handed to the embedded
function as the argument `shuffled`, and theorems quantify over every
permutation of the original input.  The remaining loop reassigns letters
`A, B, C, ...` positionally and collects the letters of correct options;
`letters[i]` raises `IndexError` for `i ≥ 10`, modelled by `Option`. -/

/-- The letter pool `'ABCDEFGHIJ'` of `shuffle_options`. -/
def shuffleLetters : List Char := ['A', 'B', 'C', 'D', 'E', 'F', 'G', 'H', 'I', 'J']

/-- The loop body of `shuffle_options`: walk the shuffled options and the
letter pool in lockstep, rebuilding each option with its new letter and
accumulating the new letters of correct options. -/
def shuffleLoop : List Opt → List Char → List Opt × List Char
  | [], _ => ([], [])
  | _ :: _, [] => ([], [])
  | o :: os, l :: ls =>
      let rest := shuffleLoop os ls
      (⟨l, o.text, o.is_correct⟩ :: rest.1,
       if o.is_correct then l :: rest.2 else rest.2)

/-- `shuffle_options` after the `random.shuffle` call: reletter the
(already shuffled) options and return them with the new correct letters.
`none` models the `IndexError` on more than 10 options. -/
def shuffle_options (shuffled : List Opt) : Option (List Opt × List Char) :=
  if shuffled.length ≤ shuffleLetters.length then
    some (shuffleLoop shuffled shuffleLetters)
  else
    none

/-! ### Answer judging (web_app.py lines 330-334)

`answer` computes `is_correct = (set(question['correct']) == set(selected))`.
Python set equality over letter lists is embedded as mutual containment. -/

/-- Python `set(a) == set(b)` on letter lists. -/
def listSetEq (a b : List Char) : Bool :=
  a.all (fun c => b.contains c) && b.all (fun c => a.contains c)

theorem listSetEq_iff_toFinset (a b : List Char) :
    listSetEq a b = true ↔ a.toFinset = b.toFinset := by
  simp only [listSetEq, Bool.and_eq_true, List.all_eq_true, List.contains, List.elem_eq_mem,
    decide_eq_true_eq]
  constructor
  · rintro ⟨h₁, h₂⟩
    ext x
    simp only [List.mem_toFinset]
    exact ⟨fun hx => h₁ x hx, fun hx => h₂ x hx⟩
  · intro h
    have hmem : ∀ x, x ∈ a ↔ x ∈ b := by
      intro x
      have := congrArg (x ∈ ·) h
      simp only [List.mem_toFinset] at this
      exact this.to_iff
    exact ⟨fun x hx => (hmem x).mp hx, fun x hx => (hmem x).mpr hx⟩

/-! ### Session state and mastery store -/

/-- An entry of `session['answers']` as appended by `answer`
(web_app.py lines 341-346).  The `correct` field is `list(set(question['correct']))`;
Python set iteration order is unspecified, embedded as `eraseDups`. -/
structure AnswerRecord where
  question_id : Nat
  selected : List Char
  correct : List Char
  is_correct : Bool
deriving Repr, DecidableEq

/-- The per-client Flask `session` keys used by the quiz handlers.
`session.get(key, default)` on a missing session yields the defaults
`[]`, `0`, `0`, `[]`, which is exactly `initState`. -/
structure SessionState where
  questions : List Question
  current_index : Nat
  score : Nat
  answers : List AnswerRecord
deriving Repr, DecidableEq

/-- The state of a missing/invalid session: every `session.get` default. -/
def initState : SessionState := ⟨[], 0, 0, []⟩

/-- The `question_mastery` table: question id ↦ `(correct_count, incorrect_count)`,
`none` when no row exists. -/
def Store : Type := Nat → Option (Nat × Nat)

/-- The empty mastery table. -/
def emptyStore : Store := fun _ => none

/-- `save_progress` (web_app.py lines 172-198): upsert into `question_mastery`.
`INSERT ... VALUES (?, 1 if is_correct else 0, 0 if is_correct else 1, ...)`
`ON CONFLICT DO UPDATE SET correct_count = correct_count + Δc, incorrect_count = incorrect_count + Δi`
with the same deltas.  (The `user_progress` history insert carries no
information the claims mention and is outside the store model.) -/
def save_progress (store : Store) (question_id : Nat) (is_correct : Bool) : Store :=
  fun q =>
    if q = question_id then
      match store question_id with
      | none => some (if is_correct then 1 else 0, if is_correct then 0 else 1)
      | some (c, i) =>
          some (c + (if is_correct then 1 else 0), i + (if is_correct then 0 else 1))
    else store q

/-- `get_mastery_info` (web_app.py lines 201-217): the row's counters,
or `(0, 0)` when no row exists. -/
def get_mastery_info (store : Store) (question_id : Nat) : Nat × Nat :=
  match store question_id with
  | some (c, i) => (c, i)
  | none => (0, 0)

/-! ### The `/answer` handler (web_app.py lines 318-360) -/

/-- The JSON response of a successful `POST /answer`. -/
structure AnswerResponse where
  is_correct : Bool
  correct_answers : List Char
  explanation : String
  mastery : Nat × Nat
deriving Repr, DecidableEq

/-- The `/answer` handler.  `none` as first component models the
`{'error': 'Quiz completed'}` early return taken when
`current_index >= len(questions)`; on that path neither the session nor
the database is touched. -/
def answer (st : SessionState) (store : Store) (selected : List Char) :
    Option AnswerResponse × SessionState × Store :=
  if h : st.current_index < st.questions.length then
    let question := st.questions.get ⟨st.current_index, h⟩
    let correct := question.correct.eraseDups
    let is_correct := listSetEq question.correct selected
    let score := if is_correct then st.score + 1 else st.score
    let answers := st.answers ++ [⟨question.id, selected, correct, is_correct⟩]
    let store' := save_progress store question.id is_correct
    let mastery := get_mastery_info store' question.id
    (some ⟨is_correct, correct, question.explanation, mastery⟩,
     { st with score := score, answers := answers },
     store')
  else
    (none, st, store)

/-! ### The `/next` handler (web_app.py lines 363-380) -/

/-- The JSON response of `GET /next`: either `{'completed': True}` or
`{'completed': False, 'question': ..., 'current': ..., 'total': ...}`. -/
structure NextResponse where
  completed : Bool
  question : Option Question
  current : Option Nat
  total : Option Nat
deriving Repr, DecidableEq

/-- The `/next` handler: unconditionally store `current_index + 1`, then
either report completion or return the question at the new index. -/
def next_question (st : SessionState) : NextResponse × SessionState :=
  let current_index := st.current_index + 1
  let st' := { st with current_index := current_index }
  if h : current_index < st.questions.length then
    (⟨false, some (st.questions.get ⟨current_index, h⟩), some (current_index + 1),
      some st.questions.length⟩, st')
  else
    (⟨true, none, none, none⟩, st')

/-! ### The `/results` handler (web_app.py lines 383-412) -/

/-- Lookup in the insertion-ordered `domain_scores` dict:
domain ↦ `(correct, total)`. -/
def domainLookup : List (String × Nat × Nat) → String → Option (Nat × Nat)
  | [], _ => none
  | (d, c, t) :: rest, x => if d = x then some (c, t) else domainLookup rest x

/-- One iteration of the breakdown loop on `domain_scores`: create the
entry with zeros if absent, then `total += 1` and `correct += 1` if the
answer was correct.  New entries go at the end (Python dicts preserve
insertion order). -/
def domainUpdate (l : List (String × Nat × Nat)) (d : String) (is_correct : Bool) :
    List (String × Nat × Nat) :=
  match l with
  | [] => [(d, if is_correct then 1 else 0, 1)]
  | (d', c, t) :: rest =>
      if d' = d then (d', c + (if is_correct then 1 else 0), t + 1) :: rest
      else (d', c, t) :: domainUpdate rest d is_correct

/-- The breakdown loop `for i, answer in enumerate(answers)` with
`q_domain = questions[i]['domain']`, run over the already-paired
`(questions[i], answers[i])` list. -/
def breakdownLoop : List (Question × AnswerRecord) → List (String × Nat × Nat) →
    List (String × Nat × Nat)
  | [], acc => acc
  | (q, a) :: rest, acc => breakdownLoop rest (domainUpdate acc q.domain a.is_correct)

/-- The `domain_scores` computation of `results`.  Indexing `questions[i]`
for the `i`-th answer raises `IndexError` when there are more answers than
questions; that crash is modelled by `none`. -/
def domain_breakdown (questions : List Question) (answers : List AnswerRecord) :
    Option (List (String × Nat × Nat)) :=
  if answers.length ≤ questions.length then
    some (breakdownLoop (questions.zip answers) [])
  else
    none

/-- The view rendered by `GET /results`. -/
structure ResultsView where
  score : Nat
  total : Nat
  percentage : ℚ
  passed : Bool
  domain_scores : Option (List (String × Nat × Nat))
deriving DecidableEq

/-- The `/results` handler: `percentage = score / total * 100 if total > 0 else 0`,
`passed = percentage >= 70`, plus the per-domain breakdown. -/
def results (st : SessionState) : ResultsView :=
  let total := st.questions.length
  let percentage : ℚ := if total > 0 then (st.score : ℚ) / (total : ℚ) * 100 else 0
  { score := st.score
    total := total
    percentage := percentage
    passed := decide (70 ≤ percentage)
    domain_scores := domain_breakdown st.questions st.answers }

/-! ### Question fetching and the limit cap (web_app.py lines 73-96)

The SQL fetch itself is the external Question Store; `get_questions` is
embedded as a function of the fetched rows (already in the arbitrary
`ORDER BY RANDOM()` order) and the `limit` argument.  `if limit:` is
Python truthiness: `None` and `0` both skip the cap. -/

/-- Python `rows[:n]`: for negative `n` the slice stops `|n|` before the
end (clamped at zero). -/
def pySlice (rows : List Question) (n : Int) : List Question :=
  if 0 ≤ n then rows.take n.toNat else rows.take ((rows.length : Int) + n).toNat

/-- The `if limit: rows = rows[:limit]` step of `get_questions`. -/
def get_questions (rows : List Question) (limit : Option Int) : List Question :=
  match limit with
  | none => rows
  | some n => if n ≠ 0 then pySlice rows n else rows

/-! ### Missed-question sourcing (web_app.py lines 220-273)

`get_missed_questions` runs
`SELECT ... FROM questions q INNER JOIN question_mastery m ON q.id = m.question_id`
`WHERE m.correct_count < 4 ORDER BY m.incorrect_count DESC, m.correct_count ASC, RANDOM()`.
The inner join keeps exactly the questions that HAVE a mastery row, the
`WHERE` keeps those with `correct_count < 4`, and the final `RANDOM()`
tie-break is modelled by quantifying over the arbitrary base order of the
`questions` table and using a stable sort on the first two keys. -/

/-- A row of the missed-question result: the question dict with its
`mastery` entry attached. -/
structure MissedQ where
  q : Question
  mastery_correct : Nat
  mastery_incorrect : Nat
deriving Repr, DecidableEq

/-- The `ORDER BY incorrect_count DESC, correct_count ASC` comparison,
as a total `le` for the stable merge sort. -/
def missedLe (a b : MissedQ) : Bool :=
  b.mastery_incorrect < a.mastery_incorrect ||
    (a.mastery_incorrect == b.mastery_incorrect && a.mastery_correct ≤ b.mastery_correct)

/-- `get_missed_questions`: inner-join the question rows with the mastery
store, keep `correct_count < 4`, and sort by the two mastery keys
(ties resolved by the arbitrary incoming order). -/
def get_missed_questions (qs : List Question) (store : Store) : List MissedQ :=
  (qs.filterMap fun q =>
      match store q.id with
      | some (c, i) => if c < 4 then some ⟨q, c, i⟩ else none
      | none => none).mergeSort missedLe

/-! ### Quiz-start routes (web_app.py lines 293-315 and 432-451) -/

/-- The `/quiz` route given the fetched rows: render the error page
(leaving the session alone) when no questions came back, otherwise
reset the session.  `none` models the error page. -/
def quiz (rows : List Question) (limit : Option Int) : Option SessionState :=
  let questions := get_questions rows limit
  if questions.isEmpty then none
  else some ⟨questions, 0, 0, []⟩

/-- The `/quiz/missed` route: error page (the congratulatory message) when
the missed pool is empty, otherwise reset the session to the pool.  The
per-question `mastery` entry stored in the session dict is unused by the
other handlers and dropped here. -/
def quiz_missed (qs : List Question) (store : Store) : Option SessionState :=
  let questions := get_missed_questions qs store
  if questions.isEmpty then none
  else some ⟨questions.map (·.q), 0, 0, []⟩

/-! ### Operation sequences

One client's request sequence against the handlers above.  `start` carries
the rows the Question Store returned (in its arbitrary random order) and
the limit; `startMissed` sources from the mastery store. -/

/-- One request of a client session. -/
inductive Op where
  | start (rows : List Question) (limit : Option Int)
  | startMissed (qs : List Question)
  | submitAnswer (selected : List Char)
  | advance
  | getResults
deriving Repr, DecidableEq

/-- Dispatch one request against the session and the mastery store.
Error-page / error-JSON paths leave both unchanged. -/
def step (st : SessionState) (store : Store) : Op → SessionState × Store
  | .start rows limit => ((quiz rows limit).getD st, store)
  | .startMissed qs => ((quiz_missed qs store).getD st, store)
  | .submitAnswer selected =>
      let r := answer st store selected
      (r.2.1, r.2.2)
  | .advance => ((next_question st).2, store)
  | .getResults => (st, store)

/-- Run a request sequence from a given session and store. -/
def run (st : SessionState) (store : Store) : List Op → SessionState × Store
  | [] => (st, store)
  | op :: ops =>
      let r := step st store op
      run r.1 r.2 ops

/-- A request sequence is guarded when every `advance` is issued only
while `current_index < len(questions)` — i.e. the client never calls
`GET /next` again once the quiz reported completion. -/
def guardedOps (st : SessionState) (store : Store) : List Op → Bool
  | [] => true
  | op :: ops =>
      (match op with
       | .advance => decide (st.current_index < st.questions.length)
       | _ => true) &&
      (let r := step st store op
       guardedOps r.1 r.2 ops)

/-! ### Concrete fixtures for witnesses and counterexamples -/

/-- A three-option question whose correct set is `{A, B, C}`. -/
def exQ1 : Question :=
  ⟨1, "q1", "d", "",
   [⟨'A', "a1", true⟩, ⟨'B', "b1", true⟩, ⟨'C', "c1", true⟩],
   ['A', 'B', 'C']⟩

/-- A two-option question whose correct set is `{B}`. -/
def exQ2 : Question :=
  ⟨2, "q2", "d2", "e2", [⟨'A', "a2", false⟩, ⟨'B', "b2", true⟩], ['B']⟩

/-! ### C2: answer judging is exact set equality -/

/-- C2: whenever `/answer` processes the current question, the verdict it
computes (and stores in the answer log) is `true` exactly when the
submitted letters and the question's correct letters are equal as sets —
no partial credit. -/
theorem submitAnswer_exact_set_match (st : SessionState) (store : Store)
    (selected : List Char) (q : Question)
    (hq : st.questions[st.current_index]? = some q) :
    ∃ resp, (answer st store selected).1 = some resp ∧
      (resp.is_correct = true ↔ selected.toFinset = q.correct.toFinset) := by
  rcases List.getElem?_eq_some.mp hq with ⟨h, hget⟩
  have hget' : st.questions.get ⟨st.current_index, h⟩ = q := hget
  unfold answer
  rw [dif_pos h]
  refine ⟨_, rfl, ?_⟩
  show listSetEq (st.questions.get ⟨st.current_index, h⟩).correct selected = true ↔ _
  rw [hget', listSetEq_iff_toFinset]
  exact ⟨fun h' => h'.symm, fun h' => h'.symm⟩

/-- C2 witness: submitting `{A, B}` against correct set `{A, B, C}` is
judged incorrect. -/
theorem submitAnswer_exact_set_match_witness :
    ([exQ1] : List Question)[0]? = some exQ1 ∧
    ∃ resp, (answer ⟨[exQ1], 0, 0, []⟩ emptyStore ['A', 'B']).1 = some resp ∧
      (resp.is_correct = true ↔
        (['A', 'B'] : List Char).toFinset = exQ1.correct.toFinset) :=
  ⟨rfl, submitAnswer_exact_set_match ⟨[exQ1], 0, 0, []⟩ emptyStore ['A', 'B'] exQ1 rfl⟩

/-- The concrete verdict for the C2 example: `{A, B}` against `{A, B, C}`
scores incorrect. -/
theorem submitAnswer_subset_selection_incorrect :
    ((answer ⟨[exQ1], 0, 0, []⟩ emptyStore ['A', 'B']).1.map (·.is_correct)) = some false := by
  decide

/-! ### C8: the quiz-completed guard of `/answer` -/

/-- C8: `/answer` returns the `Quiz completed` error exactly when
`current_index ≥ len(questions)`, and on that path the session state and
the mastery store are returned unchanged.  The missing-session case is
`initState`, whose question list has length `0`, so it always takes the
error path. -/
theorem submitAnswer_completed_guard (st : SessionState) (store : Store)
    (selected : List Char) :
    ((answer st store selected).1 = none ↔ st.questions.length ≤ st.current_index) ∧
    (st.questions.length ≤ st.current_index →
      answer st store selected = (none, st, store)) := by
  constructor
  · by_cases h : st.current_index < st.questions.length
    · simp [answer, dif_pos h]
      omega
    · simp [answer, dif_neg h]
      omega
  · intro h
    have h' : ¬ st.current_index < st.questions.length := by omega
    simp [answer, dif_neg h']

/-- C8 witness: answering with no active quiz (the defaulted empty
session) takes the error path and leaves everything unchanged. -/
theorem submitAnswer_completed_guard_witness :
    (((answer initState emptyStore ['A']).1 = none ↔
        initState.questions.length ≤ initState.current_index) ∧
     (initState.questions.length ≤ initState.current_index →
        answer initState emptyStore ['A'] = (none, initState, emptyStore))) ∧
    answer initState emptyStore ['A'] = (none, initState, emptyStore) :=
  ⟨submitAnswer_completed_guard initState emptyStore ['A'],
   (submitAnswer_completed_guard initState emptyStore ['A']).2 (by decide)⟩

/-! ### C10: the limit cap of `get_questions` -/

/-- C10: a `limit` of `None` or `0` applies no cap (all fetched rows are
kept, and `/quiz` with `limit=0` behaves exactly like `/quiz` with no
limit), while a positive limit `n` keeps at most `n` rows. -/
theorem limit_cap_spec (rows : List Question) :
    get_questions rows none = rows ∧
    get_questions rows (some 0) = rows ∧
    quiz rows (some 0) = quiz rows none ∧
    ∀ n : Int, 0 < n → (get_questions rows (some n)).length ≤ n.toNat := by
  refine ⟨rfl, by simp [get_questions], by simp [quiz, get_questions], ?_⟩
  intro n hn
  have hne : n ≠ 0 := by omega
  simp only [get_questions, if_pos hne, pySlice, if_pos (le_of_lt hn)]
  simp [List.length_take]

/-- C10 witness: with two fetched rows, `limit=None` and `limit=0` keep
both rows and `limit=1` keeps at most one. -/
theorem limit_cap_spec_witness :
    get_questions [exQ1, exQ2] none = [exQ1, exQ2] ∧
    get_questions [exQ1, exQ2] (some 0) = [exQ1, exQ2] ∧
    (get_questions [exQ1, exQ2] (some 1)).length ≤ (1 : Int).toNat :=
  ⟨(limit_cap_spec [exQ1, exQ2]).1, (limit_cap_spec [exQ1, exQ2]).2.1,
   (limit_cap_spec [exQ1, exQ2]).2.2.2 1 (by decide)⟩

/-! ### C6: the mastery upsert -/

/-- C6: `save_progress` upserts the mastery row for `question_id`: a
missing row is created seeded `(1, 0)` on a correct outcome and `(0, 1)`
on an incorrect one; an existing row has exactly the matching counter
incremented by `1`; rows of other questions are untouched; and every
existing counter is non-decreasing. -/
theorem save_progress_upsert (store : Store) (question_id : Nat) (b : Bool) :
    (store question_id = none →
      save_progress store question_id b question_id =
        some (if b then 1 else 0, if b then 0 else 1)) ∧
    (∀ c i, store question_id = some (c, i) →
      save_progress store question_id b question_id =
        some (if b then (c + 1, i) else (c, i + 1))) ∧
    (∀ q, q ≠ question_id → save_progress store question_id b q = store q) ∧
    (∀ q c i, store q = some (c, i) →
      ∃ c' i', save_progress store question_id b q = some (c', i') ∧ c ≤ c' ∧ i ≤ i') := by
  refine ⟨fun h => ?_, fun c i h => ?_, fun q hq => ?_, fun q c i h => ?_⟩
  · simp [save_progress, h]
  · cases b <;> simp [save_progress, h]
  · simp [save_progress, hq]
  · by_cases hq : q = question_id
    · subst hq
      refine ⟨c + (if b then 1 else 0), i + (if b then 0 else 1), ?_, ?_, ?_⟩
      · simp [save_progress, h]
      · exact Nat.le_add_right c _
      · exact Nat.le_add_right i _
    · exact ⟨c, i, by simp [save_progress, hq, h], le_refl c, le_refl i⟩

/-- C6 witness: creating a row with a correct outcome seeds `(1, 0)`, and
a following incorrect outcome moves it to `(1, 1)`. -/
theorem save_progress_upsert_witness :
    save_progress emptyStore 7 true 7 = some (1, 0) ∧
    save_progress (save_progress emptyStore 7 true) 7 false 7 = some (1, 1) :=
  ⟨(save_progress_upsert emptyStore 7 true).1 rfl,
   (save_progress_upsert (save_progress emptyStore 7 true) 7 false).2.1 1 0 rfl⟩

/-! ### C3: the score matches the answer log -/

/-- The advance handler only bumps `current_index`. -/
lemma next_question_snd (st : SessionState) :
    (next_question st).2 = { st with current_index := st.current_index + 1 } := by
  by_cases h : st.current_index + 1 < st.questions.length <;> simp [next_question, h]

/-- The answer handler never touches `questions` or `current_index`. -/
lemma answer_state_fields (st : SessionState) (store : Store) (selected : List Char) :
    (answer st store selected).2.1.current_index = st.current_index ∧
    (answer st store selected).2.1.questions = st.questions := by
  unfold answer
  split <;> exact ⟨rfl, rfl⟩

/-- `score = count of correct answer records` is preserved by every request. -/
lemma step_scoreInv (st : SessionState) (store : Store) (op : Op)
    (hinv : st.score = st.answers.countP (·.is_correct)) :
    (step st store op).1.score = ((step st store op).1.answers.countP (·.is_correct)) := by
  cases op with
  | start rows limit =>
      by_cases he : (get_questions rows limit).isEmpty <;>
        simp [step, quiz, he, hinv]
  | startMissed qs =>
      by_cases he : (get_missed_questions qs store).isEmpty <;>
        simp [step, quiz_missed, he, hinv]
  | submitAnswer selected =>
      by_cases h : st.current_index < st.questions.length
      · simp only [step, answer, dif_pos h, List.countP_append]
        cases hic : listSetEq (st.questions.get ⟨st.current_index, h⟩).correct selected <;>
          simp [hic, hinv, List.countP_cons]
      · simp [step, answer, dif_neg h, hinv]
  | advance =>
      simp [step, next_question_snd, hinv]
  | getResults =>
      exact hinv

/-- `score = count of correct answer records` is preserved by request runs. -/
lemma run_scoreInv (ops : List Op) :
    ∀ (st : SessionState) (store : Store),
      st.score = st.answers.countP (·.is_correct) →
      (run st store ops).1.score =
        ((run st store ops).1.answers.countP (·.is_correct)) := by
  induction ops with
  | nil => exact fun st store hinv => hinv
  | cons op ops ih =>
      intro st store hinv
      exact ih (step st store op).1 (step st store op).2 (step_scoreInv st store op hinv)

/-- C3: in every session state reachable by any request sequence from the
fresh (missing) session, the stored score equals the number of answer-log
records flagged correct. -/
theorem score_counts_correct_answers (ops : List Op) :
    (run initState emptyStore ops).1.score =
      ((run initState emptyStore ops).1.answers.countP (·.is_correct)) :=
  run_scoreInv ops initState emptyStore rfl

/-! ### C1: bounds on `current_index` -/

/-- C1 counterexample: with a one-question quiz, calling `GET /next` twice
stores `current_index = 2 > 1 = len(questions)` — the handler increments
unconditionally, so the claimed `[0, len]` bound fails once the client
advances past the completion signal. -/
theorem current_index_exceeds_length_cex :
    (run initState emptyStore
        [Op.start [exQ1] none, Op.advance, Op.advance]).1.current_index = 2 ∧
    (run initState emptyStore
        [Op.start [exQ1] none, Op.advance, Op.advance]).1.questions.length = 1 := by
  constructor <;> rfl

/-- C1 (amended): along any request sequence in which `GET /next` is only
issued while `current_index < len(questions)` — i.e. the client stops
advancing at the completion signal — `current_index` never exceeds
`len(questions)`. -/
theorem current_index_bounded_of_guarded (ops : List Op) :
    ∀ (st : SessionState) (store : Store),
      st.current_index ≤ st.questions.length →
      guardedOps st store ops = true →
      (run st store ops).1.current_index ≤ (run st store ops).1.questions.length := by
  induction ops with
  | nil => exact fun st store hinv _ => hinv
  | cons op ops ih =>
      intro st store hinv hg
      cases op with
      | start rows limit =>
          simp only [guardedOps, Bool.true_and] at hg
          refine ih _ _ ?_ hg
          by_cases he : (get_questions rows limit).isEmpty <;>
            simp [step, quiz, he, hinv]
      | startMissed qs =>
          simp only [guardedOps, Bool.true_and] at hg
          refine ih _ _ ?_ hg
          by_cases he : (get_missed_questions qs store).isEmpty <;>
            simp [step, quiz_missed, he, hinv]
      | submitAnswer selected =>
          simp only [guardedOps, Bool.true_and] at hg
          refine ih _ _ ?_ hg
          have h := answer_state_fields st store selected
          show (answer st store selected).2.1.current_index ≤
            (answer st store selected).2.1.questions.length
          rw [h.1, h.2]
          exact hinv
      | advance =>
          simp only [guardedOps, Bool.and_eq_true, decide_eq_true_eq] at hg
          refine ih _ _ ?_ hg.2
          simp only [step, next_question_snd]
          exact hg.1
      | getResults =>
          simp only [guardedOps, Bool.true_and] at hg
          exact ih _ _ hinv hg

/-- C1 witness: a client that starts a one-question quiz and advances once
(while still in bounds) ends with `current_index ≤ len(questions)`. -/
theorem current_index_bounded_of_guarded_witness :
    initState.current_index ≤ initState.questions.length ∧
    guardedOps initState emptyStore [Op.start [exQ1] none, Op.advance] = true ∧
    (run initState emptyStore [Op.start [exQ1] none, Op.advance]).1.current_index ≤
      (run initState emptyStore [Op.start [exQ1] none, Op.advance]).1.questions.length :=
  ⟨by decide, by decide,
   current_index_bounded_of_guarded [Op.start [exQ1] none, Op.advance] initState emptyStore
     (by decide) (by decide)⟩

/-! ### C4: what `/next` exposes -/

/-- C4 counterexample: `GET /next` serialises the stored question dict
verbatim, so the client-visible view of the next question still carries
the correct-letter set (`['B']`) and the per-option `is_correct` flags —
correctness is NOT withheld from the `/next` response. -/
theorem next_exposes_correctness_cex :
    (next_question ⟨[exQ1, exQ2], 0, 0, []⟩).1.completed = false ∧
    (next_question ⟨[exQ1, exQ2], 0, 0, []⟩).1.question = some exQ2 ∧
    exQ2.correct = ['B'] ∧
    exQ2.options.map (·.is_correct) = [false, true] :=
  ⟨rfl, rfl, rfl, rfl⟩

/-- C4 (amended): whenever `GET /next` returns a next question rather than
the completed signal, the returned view is exactly the stored question —
including its per-option `is_correct` flags and its correct-letter list,
so correctness information is exposed by `/next` as well, not only by
`/answer`. -/
theorem next_returns_stored_question (st : SessionState)
    (h : st.current_index + 1 < st.questions.length) :
    (next_question st).1 =
      ⟨false, some (st.questions.get ⟨st.current_index + 1, h⟩),
       some (st.current_index + 2), some st.questions.length⟩ := by
  unfold next_question
  rw [dif_pos h]

/-- C4 witness: advancing inside a two-question quiz returns the second
stored question unchanged. -/
theorem next_returns_stored_question_witness :
    0 + 1 < ([exQ1, exQ2] : List Question).length ∧
    (next_question ⟨[exQ1, exQ2], 0, 0, []⟩).1 =
      ⟨false, some exQ2, some (0 + 2), some ([exQ1, exQ2] : List Question).length⟩ :=
  ⟨by decide, next_returns_stored_question ⟨[exQ1, exQ2], 0, 0, []⟩ (by decide)⟩

/-! ### C9: the shuffle utility -/

/-- Relettering preserves the text/flag content positionally. -/
lemma shuffleLoop_map_text_flag (os : List Opt) :
    ∀ ls : List Char, os.length ≤ ls.length →
      ((shuffleLoop os ls).1.map fun o => (o.text, o.is_correct)) =
        os.map fun o => (o.text, o.is_correct) := by
  induction os with
  | nil => intro ls _; rfl
  | cons o os ih =>
      intro ls hlen
      cases ls with
      | nil => simp at hlen
      | cons l ls =>
          simp only [shuffleLoop, List.map_cons]
          rw [ih ls (by simpa using hlen)]

/-- The new letters are assigned sequentially from the pool. -/
lemma shuffleLoop_map_letter (os : List Opt) :
    ∀ ls : List Char, os.length ≤ ls.length →
      (shuffleLoop os ls).1.map Opt.letter = ls.take os.length := by
  induction os with
  | nil => intro ls _; rfl
  | cons o os ih =>
      intro ls hlen
      cases ls with
      | nil => simp at hlen
      | cons l ls =>
          simp only [shuffleLoop, List.map_cons, List.length_cons, List.take_succ_cons]
          rw [ih ls (by simpa using hlen)]

/-- One new correct letter per correct option. -/
lemma shuffleLoop_snd_length (os : List Opt) :
    ∀ ls : List Char, os.length ≤ ls.length →
      (shuffleLoop os ls).2.length = os.countP (·.is_correct) := by
  induction os with
  | nil => intro ls _; rfl
  | cons o os ih =>
      intro ls hlen
      cases ls with
      | nil => simp at hlen
      | cons l ls =>
          simp only [shuffleLoop, List.countP_cons]
          cases hoc : o.is_correct <;>
            simp [hoc, ih ls (by simpa using hlen)]

/-- The new correct letters are drawn from the letter pool in order. -/
lemma shuffleLoop_snd_sublist (os : List Opt) :
    ∀ ls : List Char, (shuffleLoop os ls).2.Sublist ls := by
  induction os with
  | nil => intro ls; simp [shuffleLoop]
  | cons o os ih =>
      intro ls
      cases ls with
      | nil => simp [shuffleLoop]
      | cons l ls =>
          cases hoc : o.is_correct
          · simpa [shuffleLoop, hoc] using (ih ls).cons l
          · simpa [shuffleLoop, hoc] using (ih ls).cons₂ l

/-- C9: for every input of at most 10 options and every permutation the
internal `random.shuffle` may produce, `shuffle_options` succeeds and
returns (1) an option list whose texts and correctness flags are a
permutation of the input's, (2) letters reassigned sequentially
`A, B, C, ...` in the new order, and (3) a duplicate-free correct-letter
list with exactly one letter per correct input option — so the new
correct-letter set has the same cardinality as the old one.  (The Python
function shuffles a copy of its argument, so it has no side effect on its
input; the embedding is a pure function of the shuffled copy.) -/
theorem shuffle_relettering_spec (options shuffled : List Opt)
    (hperm : shuffled.Perm options) (hlen : options.length ≤ 10) :
    ∃ new_options correct,
      shuffle_options shuffled = some (new_options, correct) ∧
      (new_options.map fun o => (o.text, o.is_correct)).Perm
        (options.map fun o => (o.text, o.is_correct)) ∧
      new_options.map Opt.letter = shuffleLetters.take shuffled.length ∧
      correct.Nodup ∧
      correct.length = options.countP (·.is_correct) ∧
      ((options.map Opt.letter).Nodup →
        correct.toFinset.card =
          ((options.filter (·.is_correct)).map Opt.letter).toFinset.card) := by
  have hlen' : shuffled.length ≤ shuffleLetters.length := by
    rw [hperm.length_eq]
    simpa [shuffleLetters] using hlen
  have hnodupNew : (shuffleLoop shuffled shuffleLetters).2.Nodup :=
    (shuffleLoop_snd_sublist shuffled shuffleLetters).nodup (by decide)
  have hcount : (shuffleLoop shuffled shuffleLetters).2.length =
      options.countP (·.is_correct) := by
    rw [shuffleLoop_snd_length shuffled shuffleLetters hlen']
    exact hperm.countP_eq _
  refine ⟨(shuffleLoop shuffled shuffleLetters).1, (shuffleLoop shuffled shuffleLetters).2,
    ?_, ?_, ?_, hnodupNew, hcount, ?_⟩
  · simp [shuffle_options, hlen']
  · rw [shuffleLoop_map_text_flag shuffled shuffleLetters hlen']
    exact hperm.map _
  · exact shuffleLoop_map_letter shuffled shuffleLetters hlen'
  · intro hnodupOld
    have hsub : ((options.filter (·.is_correct)).map Opt.letter).Sublist
        (options.map Opt.letter) :=
      (List.filter_sublist options).map Opt.letter
    have hndOld : ((options.filter (·.is_correct)).map Opt.letter).Nodup :=
      hsub.nodup hnodupOld
    rw [List.toFinset_card_of_nodup hnodupNew, List.toFinset_card_of_nodup hndOld,
      List.length_map, ← List.countP_eq_length_filter]
    exact hcount

/-- A two-option input for the shuffle witness. -/
def exOpts : List Opt := [⟨'A', "x", true⟩, ⟨'B', "y", false⟩]

/-- The reversed order of `exOpts`, one possible result of `random.shuffle`. -/
def exShuffled : List Opt := [⟨'B', "y", false⟩, ⟨'A', "x", true⟩]

/-- C9 witness: the reversed two-option input is relettered `A, B` with a
single correct letter, matching the single correct input option. -/
theorem shuffle_relettering_spec_witness :
    exShuffled.Perm exOpts ∧ exOpts.length ≤ 10 ∧
    (∃ new_options correct,
      shuffle_options exShuffled = some (new_options, correct) ∧
      (new_options.map fun o => (o.text, o.is_correct)).Perm
        (exOpts.map fun o => (o.text, o.is_correct)) ∧
      new_options.map Opt.letter = shuffleLetters.take exShuffled.length ∧
      correct.Nodup ∧
      correct.length = exOpts.countP (·.is_correct) ∧
      ((exOpts.map Opt.letter).Nodup →
        correct.toFinset.card =
          ((exOpts.filter (·.is_correct)).map Opt.letter).toFinset.card)) :=
  ⟨by decide, by decide, shuffle_relettering_spec exOpts exShuffled (by decide) (by decide)⟩

/-! ### C5: the results view -/

/-- Effect of one `domain_scores` update on a later lookup. -/
lemma domainLookup_update (l : List (String × Nat × Nat)) (d x : String) (b : Bool) :
    domainLookup (domainUpdate l d b) x =
      if d = x then
        match domainLookup l x with
        | some (c, t) => some (c + (if b then 1 else 0), t + 1)
        | none => some ((if b then 1 else 0), 1)
      else domainLookup l x := by
  induction l with
  | nil =>
      by_cases hdx : d = x <;> simp [domainUpdate, domainLookup, hdx]
  | cons e rest ih =>
      obtain ⟨d', c, t⟩ := e
      by_cases hd : d' = d
      · subst hd
        by_cases hdx : d' = x
        · subst hdx
          simp [domainUpdate, domainLookup]
        · simp [domainUpdate, domainLookup, hdx]
      · by_cases hdx : d' = x
        · subst hdx
          have hne : ¬ d = d' := fun hh => hd hh.symm
          simp [domainUpdate, domainLookup, hd, hne]
        · simp [domainUpdate, domainLookup, hd, hdx, ih]

/-- Lookup after the whole breakdown loop: counters accumulate the counts
of the processed (question, answer) pairs for that domain. -/
lemma breakdownLoop_lookup (P : List (Question × AnswerRecord)) :
    ∀ (acc : List (String × Nat × Nat)) (x : String),
      domainLookup (breakdownLoop P acc) x =
        match domainLookup acc x with
        | some (c, t) =>
            some (c + P.countP (fun p => p.1.domain == x && p.2.is_correct),
                  t + P.countP (fun p => p.1.domain == x))
        | none =>
            if P.countP (fun p => p.1.domain == x) = 0 then none
            else some (P.countP (fun p => p.1.domain == x && p.2.is_correct),
                       P.countP (fun p => p.1.domain == x)) := by
  induction P with
  | nil =>
      intro acc x
      cases hacc : domainLookup acc x with
      | none => simp [breakdownLoop, hacc]
      | some ct => obtain ⟨c, t⟩ := ct; simp [breakdownLoop, hacc]
  | cons p rest ih =>
      obtain ⟨q, a⟩ := p
      intro acc x
      rw [breakdownLoop, ih, domainLookup_update]
      by_cases hqx : q.domain = x
      · cases hacc : domainLookup acc x with
        | none =>
            cases hb : a.is_correct <;>
              simp [hacc, hqx, List.countP_cons, hb, Nat.add_comm]
        | some ct =>
            obtain ⟨c, t⟩ := ct
            cases hb : a.is_correct <;>
              simp [hacc, hqx, List.countP_cons, hb] <;> omega
      · have hfalse : (q.domain == x) = false := by simpa using hqx
        rw [if_neg hqx]
        have h1 : List.countP (fun p => p.1.domain == x) ((q, a) :: rest) =
            List.countP (fun p => p.1.domain == x) rest := by
          simp [List.countP_cons, hfalse]
        have h2 : List.countP (fun p => p.1.domain == x && p.2.is_correct) ((q, a) :: rest) =
            List.countP (fun p => p.1.domain == x && p.2.is_correct) rest := by
          simp [List.countP_cons, hfalse]
        rw [h1, h2]

/-- C5 counterexample: a session holding one question (domain `"d"`) with
no answers yet.  The claim promises a breakdown entry for every domain
appearing among the session's questions, but the breakdown only iterates
over `answers`, so it is empty and has no entry for `"d"`. -/
theorem results_breakdown_cex :
    (results ⟨[exQ1], 0, 0, []⟩).domain_scores = some [] ∧
    exQ1.domain = "d" ∧
    domainLookup [] "d" = none :=
  ⟨rfl, rfl, rfl⟩

/-- C5 (amended): `results` computes `percentage = score / total * 100`
(`0` when `total = 0`, with no division error) and `passed` exactly when
`percentage ≥ 70`; when the answer log is no longer than the question list
(indexing `questions[i]` would crash otherwise), the domain breakdown has
an entry for exactly the domains appearing among the ANSWERED questions —
answers paired positionally with the question list — giving for each such
domain the attempted count and the correct count.  Domains occurring only
among unanswered questions have no entry. -/
theorem results_spec (st : SessionState)
    (h : st.answers.length ≤ st.questions.length) :
    (st.questions.length = 0 → (results st).percentage = 0) ∧
    (0 < st.questions.length →
      (results st).percentage = (st.score : ℚ) / (st.questions.length : ℚ) * 100) ∧
    ((results st).passed = true ↔ 70 ≤ (results st).percentage) ∧
    ∃ bl, (results st).domain_scores = some bl ∧
      ∀ d, domainLookup bl d =
        (if (st.questions.zip st.answers).countP (fun p => p.1.domain == d) = 0 then none
         else
           some ((st.questions.zip st.answers).countP
                   (fun p => p.1.domain == d && p.2.is_correct),
                 (st.questions.zip st.answers).countP (fun p => p.1.domain == d))) := by
  refine ⟨fun h0 => by simp [results, h0], fun h0 => by simp [results, h0],
    by simp [results], ?_⟩
  refine ⟨breakdownLoop (st.questions.zip st.answers) [], ?_, ?_⟩
  · simp [results, domain_breakdown, h]
  · intro d
    have hb := breakdownLoop_lookup (st.questions.zip st.answers) [] d
    simpa [domainLookup] using hb

/-- A recorded answer to `exQ1` for the C5 witness session. -/
def exAns1 : AnswerRecord := ⟨1, ['A'], ['A', 'B', 'C'], false⟩

/-- The C5 witness session: one answered question out of two. -/
def exSt5 : SessionState := ⟨[exQ1, exQ2], 1, 0, [exAns1]⟩

/-- C5 witness: the percentage, pass and breakdown facts hold at the
concrete session `exSt5`. -/
theorem results_spec_witness :
    exSt5.answers.length ≤ exSt5.questions.length ∧
    ((exSt5.questions.length = 0 → (results exSt5).percentage = 0) ∧
     (0 < exSt5.questions.length →
       (results exSt5).percentage = (exSt5.score : ℚ) / (exSt5.questions.length : ℚ) * 100) ∧
     ((results exSt5).passed = true ↔ 70 ≤ (results exSt5).percentage) ∧
     ∃ bl, (results exSt5).domain_scores = some bl ∧
       ∀ d, domainLookup bl d =
         (if (exSt5.questions.zip exSt5.answers).countP (fun p => p.1.domain == d) = 0 then
            none
          else
            some ((exSt5.questions.zip exSt5.answers).countP
                    (fun p => p.1.domain == d && p.2.is_correct),
                  (exSt5.questions.zip exSt5.answers).countP
                    (fun p => p.1.domain == d)))) :=
  ⟨by decide, results_spec exSt5 (by decide)⟩

/-! ### C7: the missed-question pool -/

/-- The `ORDER BY` comparison is transitive. -/
lemma missedLe_trans (a b c : MissedQ) (hab : missedLe a b = true) (hbc : missedLe b c = true) :
    missedLe a c = true := by
  simp only [missedLe, Bool.or_eq_true, Bool.and_eq_true, decide_eq_true_eq,
    beq_iff_eq] at hab hbc ⊢
  omega

/-- The `ORDER BY` comparison is total. -/
lemma missedLe_total (a b : MissedQ) : (missedLe a b || missedLe b a) = true := by
  simp only [missedLe, Bool.or_eq_true, Bool.and_eq_true, decide_eq_true_eq, beq_iff_eq]
  omega

/-- C7 counterexample: a question that has never been attempted has no
`question_mastery` row, so its (defaulted) mastery `correct_count` is
`0 < 4` — yet the inner join in `get_missed_questions` drops it from the
pool.  The pool is therefore NOT "exactly the subset of questions whose
mastery correct_count < 4". -/
theorem missed_pool_cex :
    get_missed_questions [exQ1] emptyStore = [] ∧
    (get_mastery_info emptyStore exQ1.id).1 < 4 := by
  constructor
  · simp [get_missed_questions, emptyStore, List.mergeSort_nil]
  · decide

/-- C7 (amended): `StartMissedOnly` sources its pool from exactly the
questions that HAVE a mastery record with `correct_count < 4` (the inner
join excludes never-attempted questions); the pool is ordered by
`incorrect_count` descending, then `correct_count` ascending, with ties
resolved by the arbitrary (random) incoming row order; and the route
renders the congratulatory empty-pool message if and only if no question
qualifies. -/
theorem missed_pool_spec (qs : List Question) (store : Store) :
    (∀ mq : MissedQ, mq ∈ get_missed_questions qs store ↔
      (mq.q ∈ qs ∧ store mq.q.id = some (mq.mastery_correct, mq.mastery_incorrect) ∧
        mq.mastery_correct < 4)) ∧
    List.Pairwise (fun a b => missedLe a b = true) (get_missed_questions qs store) ∧
    (quiz_missed qs store = none ↔ get_missed_questions qs store = []) := by
  refine ⟨?_, ?_, ?_⟩
  · intro mq
    rw [get_missed_questions, List.mem_mergeSort, List.mem_filterMap]
    constructor
    · rintro ⟨q, hq, hf⟩
      revert hf
      cases hs : store q.id with
      | none => intro hf; simp at hf
      | some ci =>
          obtain ⟨c, i⟩ := ci
          by_cases hc : c < 4
          · intro hf
            have hf' : (if c < 4 then some (⟨q, c, i⟩ : MissedQ) else none) = some mq := hf
            rw [if_pos hc] at hf'
            cases hf'
            exact ⟨hq, by simp [hs], hc⟩
          · intro hf
            have hf' : (if c < 4 then some (⟨q, c, i⟩ : MissedQ) else none) = some mq := hf
            rw [if_neg hc] at hf'
            cases hf'
    · rintro ⟨hq, hs, hc⟩
      exact ⟨mq.q, hq, by simp [hs, hc]⟩
  · rw [get_missed_questions]
    exact List.sorted_mergeSort missedLe_trans missedLe_total _
  · cases hgm : get_missed_questions qs store with
    | nil => simp [quiz_missed, hgm]
    | cons a l => simp [quiz_missed, hgm]

end QuizTrainer
